import Mathlib

/-!
Shallow embedding of `git-subdir` (src/main.rs), a tool that downloads a
subdirectory of a GitHub repository.

Modelling conventions:
* Rust strings (`&str`, `String`) are embedded as `List Char` (`Str` below);
  a concrete literal appears as `"...".data`.
* `PathBuf` values are embedded as their lists of `/`-separated components
  (`List Str`); the source only builds paths from `/`-joined non-empty
  segments, for which this componentwise view is exact.
* Fallible operations (`Result`, `unwrap` panics, `panic!`) are embedded as
  `Except`.
* The network is an explicit parameter (`Site`): `items` gives the entries of
  the embedded `payload.tree.items` JSON found at a listing URL (concatenated
  over all matching script blocks; zero blocks gives `[]`), and `raw` gives
  the body served at a raw-content URL.  Transport itself is modelled as
  total, since no claim concerns transport failure.
* The recursive walker `get_subdir` takes a fuel argument so that it is
  structurally recursive; the Rust original recurses without bound.
* File writes, listing fetches and the skipped-symlink message are recorded
  in an event trace, which plays the role of the local filesystem plus the
  printed log.  The `wrote` event additionally records the remote path of
  the written item so that properties of the path mapping can be stated.
-/

deriving instance DecidableEq for Except

namespace GitSubdir

/-- Characters of a Rust string. -/
abbrev Str := List Char

/-- Models Rust `str::split` with a one-character separator: splitting on
every occurrence of `sep`, keeping empty pieces (n separators give n+1
pieces). -/
def splitChar (sep : Char) : Str → List Str
  | [] => [[]]
  | c :: cs =>
    match splitChar sep cs with
    | [] => [[]]
    | g :: gs => if c = sep then [] :: g :: gs else (c :: g) :: gs

/-- Models `.split("/").filter(|s| s.len() > 0)` from `GitHubUrl::new`. -/
def slashSegs (l : Str) : List Str :=
  (splitChar '/' l).filter (fun s => s.length > 0)

/-- Models `Vec<&str>::join("/")` (also how `PathBuf` displays a relative
path assembled from components). -/
def joinSlash : List Str → Str
  | [] => []
  | [s] => s
  | s :: rest => s ++ '/' :: joinSlash rest

/-- Models Rust `str::starts_with` for the hosting check. -/
def strStarts : Str → Str → Bool
  | [], _ => true
  | _ :: _, [] => false
  | p :: ps, c :: cs => if p = c then strStarts ps cs else false

/-- The fixed hosting root `"https://github.com"` (`prefix` in the source). -/
def hostAddr : Str := "https://github.com".data

/-- The raw-content host `"https://raw.githubusercontent.com"`. -/
def rawAddr : Str := "https://raw.githubusercontent.com".data

/-- The distinct error messages produced by `GitHubUrl::new` (the source
returns `Err(String)`; the constructors correspond to the four message
shapes). -/
inductive UrlError
  | notAGithubUrl
  | topLevelRepo
  | notADirectoryUrl
  | unparsableUrl
deriving DecidableEq, Repr

/-- The `GitHubUrl` struct of the source.  `path` holds the components of
the `PathBuf` built from `url_parts[4..].join("/")`. -/
structure GitHubUrl where
  site : Str
  raw_site : Str
  username : Str
  repo_name : Str
  branch : Str
  path : List Str
deriving DecidableEq, Repr

/-- `GitHubUrl::new`.  Follows the source line by line: hosting check, strip
the host, split on `/` discarding empty segments, the three error gates, then
the field assignments `[0]`, `[1]`, `[3]`, `[4..]`. -/
def GitHubUrl.new (url : Str) : Except UrlError GitHubUrl :=
  if strStarts hostAddr url then
    let url_parts := slashSegs (url.drop hostAddr.length)
    if url_parts.length = 2 then .error .topLevelRepo
    else if url_parts.length < 4 then .error .notADirectoryUrl
    else if url_parts[2]! ≠ "tree".data then .error .unparsableUrl
    else .ok { site := hostAddr, raw_site := rawAddr,
               username := url_parts[0]!, repo_name := url_parts[1]!,
               branch := url_parts[3]!, path := url_parts.drop 4 }
  else .error .notAGithubUrl

/-- `GitHubUrl::url`: `"{site}/{username}/{repo_name}/tree/{branch}/{path}"`. -/
def GitHubUrl.url (u : GitHubUrl) : Str :=
  u.site ++ '/' :: (u.username ++ '/' :: (u.repo_name ++ '/' ::
    ("tree".data ++ '/' :: (u.branch ++ '/' :: joinSlash u.path))))

/-- `GitHubUrl::raw_url`: `"{raw_site}/{username}/{repo_name}/{branch}/{path}"`. -/
def GitHubUrl.raw_url (u : GitHubUrl) : Str :=
  u.raw_site ++ '/' :: (u.username ++ '/' :: (u.repo_name ++ '/' ::
    (u.branch ++ '/' :: joinSlash u.path)))

/-- `GitHubUrl::basename`: last path component.  The source unwraps
`components().last()`, panicking on an empty path; the panic is modelled by
`none`. -/
def GitHubUrl.basename (u : GitHubUrl) : Option Str :=
  u.path.getLast?

/-- `GitHubUrl::join`: re-parses `"{url()}/{part}"`.  The source unwraps the
result, panicking on a parse error; the error is kept explicit here. -/
def GitHubUrl.join (u : GitHubUrl) (part : Str) : Except UrlError GitHubUrl :=
  GitHubUrl.new (u.url ++ '/' :: part)

/-! ### Lemmas about splitting and joining on `/` -/

theorem splitChar_shape (sep : Char) (l : Str) : ∃ g gs, splitChar sep l = g :: gs := by
  induction l with
  | nil => exact ⟨[], [], rfl⟩
  | cons c cs ih =>
    obtain ⟨g, gs, h⟩ := ih
    by_cases hc : c = sep
    · exact ⟨[], g :: gs, by simp [splitChar, h, hc]⟩
    · exact ⟨c :: g, gs, by simp [splitChar, h, hc]⟩

theorem splitChar_ne_nil (sep : Char) (l : Str) : splitChar sep l ≠ [] := by
  obtain ⟨g, gs, h⟩ := splitChar_shape sep l
  simp [h]

theorem splitChar_cons_sep (sep : Char) (b : Str) :
    splitChar sep (sep :: b) = [] :: splitChar sep b := by
  obtain ⟨g, gs, h⟩ := splitChar_shape sep b
  rw [h]
  simp only [splitChar, h, if_true]

theorem splitChar_cons_ne (sep c : Char) (b : Str) (hc : c ≠ sep) (g : Str)
    (gs : List Str) (h : splitChar sep b = g :: gs) :
    splitChar sep (c :: b) = (c :: g) :: gs := by
  simp only [splitChar, h]
  simp [hc]

theorem splitChar_append_sep (sep : Char) (a b : Str) :
    splitChar sep (a ++ sep :: b) = splitChar sep a ++ splitChar sep b := by
  induction a with
  | nil =>
    rw [List.nil_append, splitChar_cons_sep]
    rfl
  | cons c a ih =>
    by_cases hc : c = sep
    · subst hc
      rw [List.cons_append, splitChar_cons_sep, splitChar_cons_sep, ih, List.cons_append]
    · obtain ⟨g, gs, h⟩ : ∃ g gs, splitChar sep a = g :: gs := by
        cases h : splitChar sep a with
        | nil => exact absurd h (splitChar_ne_nil sep a)
        | cons g gs => exact ⟨g, gs, rfl⟩
      rw [List.cons_append,
        splitChar_cons_ne sep c _ hc g (gs ++ splitChar sep b) (by rw [ih, h]; rfl),
        splitChar_cons_ne sep c a hc g gs h, List.cons_append]

theorem splitChar_no_sep (sep : Char) (l : Str) (h : sep ∉ l) : splitChar sep l = [l] := by
  induction l with
  | nil => rfl
  | cons c cs ih =>
    have hc : c ≠ sep := by
      rintro rfl
      exact h (List.mem_cons_self c cs)
    have hcs := ih (fun hm => h (List.mem_cons_of_mem _ hm))
    rw [splitChar_cons_ne sep c cs hc cs [] hcs]

theorem mem_splitChar_no_sep (sep : Char) (l x : Str) (hx : x ∈ splitChar sep l) :
    sep ∉ x := by
  induction l generalizing x with
  | nil =>
    simp only [splitChar, List.mem_singleton] at hx
    simp [hx]
  | cons c cs ih =>
    by_cases hc : c = sep
    · subst hc
      rw [splitChar_cons_sep] at hx
      rcases List.mem_cons.mp hx with h | h
      · simp [h]
      · exact ih x h
    · obtain ⟨g, gs, h⟩ : ∃ g gs, splitChar sep cs = g :: gs := by
        cases h : splitChar sep cs with
        | nil => exact absurd h (splitChar_ne_nil sep cs)
        | cons g gs => exact ⟨g, gs, rfl⟩
      rw [splitChar_cons_ne sep c cs hc g gs h] at hx
      rcases List.mem_cons.mp hx with h2 | h2
      · subst h2
        intro hmem
        rcases List.mem_cons.mp hmem with h3 | h3
        · exact hc h3.symm
        · exact ih g (h ▸ List.mem_cons_self g gs) h3
      · exact ih x (h ▸ List.mem_cons_of_mem g h2)

theorem slashSegs_nil : slashSegs [] = [] := rfl

theorem slashSegs_append_sep (a b : Str) :
    slashSegs (a ++ '/' :: b) = slashSegs a ++ slashSegs b := by
  unfold slashSegs
  rw [splitChar_append_sep, List.filter_append]

theorem slashSegs_sep_cons (b : Str) : slashSegs ('/' :: b) = slashSegs b := by
  have h := slashSegs_append_sep [] b
  simpa [slashSegs_nil] using h

theorem slashSegs_no_sep (l : Str) (h0 : l ≠ []) (h : '/' ∉ l) : slashSegs l = [l] := by
  unfold slashSegs
  rw [splitChar_no_sep _ _ h]
  simp [List.length_pos, h0]

theorem mem_slashSegs (l x : Str) (hx : x ∈ slashSegs l) : x ≠ [] ∧ '/' ∉ x := by
  unfold slashSegs at hx
  have h1 := List.of_mem_filter hx
  have h2 := List.mem_of_mem_filter hx
  refine ⟨?_, mem_splitChar_no_sep _ _ _ h2⟩
  have := of_decide_eq_true h1
  simpa [List.length_pos] using this

theorem joinSlash_cons_cons (s t : Str) (rest : List Str) :
    joinSlash (s :: t :: rest) = s ++ '/' :: joinSlash (t :: rest) := rfl

theorem slashSegs_joinSlash (L : List Str) (h : ∀ x ∈ L, x ≠ [] ∧ '/' ∉ x) :
    slashSegs (joinSlash L) = L := by
  induction L with
  | nil => exact slashSegs_nil
  | cons s rest ih =>
    cases rest with
    | nil =>
      have hs := h s (by simp)
      simp [joinSlash, slashSegs_no_sep s hs.1 hs.2]
    | cons t r =>
      rw [joinSlash_cons_cons, slashSegs_append_sep]
      have hs := h s (by simp)
      rw [slashSegs_no_sep s hs.1 hs.2, ih (fun x hx => h x (by simp [hx]))]
      rfl

theorem strStarts_append (p r : Str) : strStarts p (p ++ r) = true := by
  induction p with
  | nil => rfl
  | cons c cs ih => simp [strStarts, ih]

theorem strStarts_iff (p s : Str) : strStarts p s = true ↔ ∃ r, s = p ++ r := by
  constructor
  · intro h
    induction p generalizing s with
    | nil => exact ⟨s, rfl⟩
    | cons c cs ih =>
      cases s with
      | nil => simp [strStarts] at h
      | cons d ds =>
        rw [strStarts] at h
        by_cases hc : c = d
        · obtain ⟨r, hr⟩ := ih ds (by simpa [hc] using h)
          exact ⟨r, by simp [hc, hr]⟩
        · simp [hc] at h
  · rintro ⟨r, rfl⟩
    exact strStarts_append p r

/-! ### Characterizing `GitHubUrl::new` -/

/-- One `/`-separated segment: non-empty and free of `/`. -/
def segOk (s : Str) : Prop := s ≠ [] ∧ '/' ∉ s

/-- The invariants every `GitHubUrl` produced by `GitHubUrl::new` enjoys. -/
def GitHubUrl.wf (u : GitHubUrl) : Prop :=
  u.site = hostAddr ∧ u.raw_site = rawAddr ∧ segOk u.username ∧ segOk u.repo_name ∧
    segOk u.branch ∧ ∀ x ∈ u.path, segOk x

theorem list_shape_of_four_le {α : Type} (l : List α) (h : 4 ≤ l.length) :
    ∃ a b c d r, l = a :: b :: c :: d :: r := by
  cases l with
  | nil => simp at h
  | cons a l =>
    cases l with
    | nil => simp at h
    | cons b l =>
      cases l with
      | nil => simp at h
      | cons c l =>
        cases l with
        | nil => simp at h
        | cons d r => exact ⟨a, b, c, d, r, rfl⟩

theorem new_ok_of_parts (url : Str) (p0 p1 p3 : Str) (rest : List Str)
    (hs : strStarts hostAddr url = true)
    (hp : slashSegs (url.drop hostAddr.length) = p0 :: p1 :: "tree".data :: p3 :: rest) :
    GitHubUrl.new url = .ok ⟨hostAddr, rawAddr, p0, p1, p3, rest⟩ := by
  unfold GitHubUrl.new
  simp only [hs, if_true, hp]
  rw [if_neg (by simp), if_neg (by simp), if_neg (by simp)]
  simp

theorem new_ok_elim (url : Str) (u : GitHubUrl) (h : GitHubUrl.new url = .ok u) :
    strStarts hostAddr url = true ∧
      slashSegs (url.drop hostAddr.length) =
        u.username :: u.repo_name :: "tree".data :: u.branch :: u.path ∧
      u.site = hostAddr ∧ u.raw_site = rawAddr := by
  unfold GitHubUrl.new at h
  split at h
  case isFalse => simp at h
  case isTrue hs =>
    simp only [] at h
    split at h
    · simp at h
    · split at h
      · simp at h
      · split at h
        · simp at h
        · rename_i h2 h3 h4
          obtain ⟨a, b, c, d, r, hl⟩ :=
            list_shape_of_four_le (slashSegs (url.drop hostAddr.length)) (by omega)
          rw [hl] at h h4
          simp only [not_not] at h4
          simp only [List.getElem!_cons_zero, List.getElem!_cons_succ] at h h4
          rw [Except.ok.injEq] at h
          subst h
          refine ⟨hs, ?_, rfl, rfl⟩
          rw [hl]
          simp [h4]

theorem new_ok_wf (url : Str) (u : GitHubUrl) (h : GitHubUrl.new url = .ok u) : u.wf := by
  obtain ⟨hs, hp, hsite, hraw⟩ := new_ok_elim url u h
  refine ⟨hsite, hraw, ?_, ?_, ?_, ?_⟩
  · exact mem_slashSegs _ _ (by rw [hp]; simp)
  · exact mem_slashSegs _ _ (by rw [hp]; simp)
  · exact mem_slashSegs _ _ (by rw [hp]; simp)
  · intro x hx
    exact mem_slashSegs _ _ (by rw [hp]; simp [hx])

/-- Segmentation of a reconstructed directory URL: after the host, `url()`
yields exactly the four coordinate segments followed by the path segments. -/
theorem segs_url (u : GitHubUrl) (h : u.wf) :
    slashSegs (u.url.drop hostAddr.length) =
      u.username :: u.repo_name :: "tree".data :: u.branch :: u.path := by
  obtain ⟨hs, _, hu, hre, hb, hp⟩ := h
  unfold GitHubUrl.url
  rw [hs, List.drop_left, slashSegs_sep_cons, slashSegs_append_sep,
    slashSegs_append_sep, slashSegs_append_sep, slashSegs_append_sep,
    slashSegs_no_sep _ hu.1 hu.2, slashSegs_no_sep _ hre.1 hre.2,
    slashSegs_no_sep _ (by decide) (by decide), slashSegs_no_sep _ hb.1 hb.2,
    slashSegs_joinSlash _ hp]
  rfl

/-- `GitHubUrl::join` on a well-formed location and a well-formed segment
round-trips through `new`, appending the segment to `path`. -/
theorem join_ok (u : GitHubUrl) (hw : u.wf) (part : Str) (hp : segOk part) :
    u.join part = .ok { u with path := u.path ++ [part] } := by
  have hsegs := segs_url u hw
  have hsite := hw.1
  have hraw := hw.2.1
  have htail : u.url = hostAddr ++ ('/' :: (u.username ++ '/' :: (u.repo_name ++ '/' ::
      ("tree".data ++ '/' :: (u.branch ++ '/' :: joinSlash u.path))))) := by
    unfold GitHubUrl.url
    rw [hsite]
  have hdrop : u.url.drop hostAddr.length = '/' :: (u.username ++ '/' :: (u.repo_name ++ '/' ::
      ("tree".data ++ '/' :: (u.branch ++ '/' :: joinSlash u.path)))) := by
    rw [htail, List.drop_left]
  have hstarts : strStarts hostAddr (u.url ++ '/' :: part) = true := by
    rw [htail, List.append_assoc]
    exact strStarts_append _ _
  have hs2 : slashSegs ((u.url ++ '/' :: part).drop hostAddr.length) =
      u.username :: u.repo_name :: "tree".data :: u.branch :: (u.path ++ [part]) := by
    rw [htail, List.append_assoc, List.drop_left, slashSegs_append_sep, ← hdrop, hsegs,
      slashSegs_no_sep part hp.1 hp.2]
    simp
  unfold GitHubUrl.join
  rw [new_ok_of_parts (u.url ++ '/' :: part) u.username u.repo_name u.branch
    (u.path ++ [part]) hstarts hs2, ← hsite, ← hraw]

/-! ### The directory walker -/

/-- One row of the embedded `payload.tree.items` listing: the strings
`contentType` and `name`, and the components of the `PathBuf` built from the
item's repository-root-relative `path` string. -/
structure Item where
  contentType : Str
  name : Str
  path : List Str
deriving DecidableEq, Repr

/-- Externally observable effects of a walk: a listing-page fetch in
`get_subdir`, a file written by `download_file` (the remote item path is
recorded alongside the destination so the path mapping can be specified),
and the printed skipped-symlink warning. -/
inductive Event
  | fetched (url : Str)
  | wrote (remote : List Str) (dest : List Str) (content : Str)
  | skippedSymlink (path : List Str)
deriving DecidableEq, Repr

/-- The remote service: `items` is the concatenation over all embedded-data
script blocks of `payload.tree.items` served at a listing URL (no block
gives `[]`), `raw` is the body served at a raw-content URL.  Transport is
modelled as total since no claim concerns transport failure. -/
structure Site where
  items : Str → List Item
  raw : Str → Str

/-- The panics that can abort a traversal: `base_url.join(..).unwrap()`,
`item_path.strip_prefix(..).unwrap()`, the unknown-`contentType` `panic!`,
and exhaustion of the fuel that makes the embedded recursion structural. -/
inductive WalkError
  | joinPanic (e : UrlError)
  | prefixPanic
  | unknownItemType (t : Str)
  | outOfFuel
deriving DecidableEq, Repr

/-- Models `Path::strip_prefix`, componentwise. -/
def stripSegs : List Str → List Str → Option (List Str)
  | [], l => some l
  | _ :: _, [] => none
  | p :: ps, x :: xs => if x = p then stripSegs ps xs else none

/-- The `rel_path` computation of `download` (src lines 258-272): with
`Some(rel_url)`, strip `rel_url.path` off the item path, panicking (modelled
as `prefixPanic`) when it is not a prefix; with `None`, drop the first
component (`components().skip(1)`). -/
def relPathOf (item_path : List Str) (relative_to : Option GitHubUrl) :
    Except WalkError (List Str) :=
  match relative_to with
  | some rel_url =>
    match stripSegs rel_url.path item_path with
    | some r => .ok r
    | none => .error .prefixPanic
  | none => .ok (item_path.drop 1)

/-- `download_file` (src lines 297-311): fetch the raw content of `url` and
write it to `filename`, emitting the per-file event.  `remote` is the item's
repository-root-relative path, recorded for specification purposes. -/
def download_file (site : Site) (url : GitHubUrl) (remote filename : List Str)
    (tr : List Event) : List Event :=
  tr ++ [.wrote remote filename (site.raw url.raw_url)]

/-- `download` (src lines 241-289).  `recurse` stands for the recursive call
`get_subdir(&url, output_path, ignore_subdirs, relative_to)` that the Rust
function makes directly; passing it as a parameter keeps the recursion
structural in `get_subdir`'s fuel.  Mirrors the source order: join the item
name onto the base URL, compute the destination, then dispatch on
`contentType`.  The `Nat` is the number of files written (the Walk count
contract). -/
def download (recurse : GitHubUrl → List Event → List Event × Except WalkError Nat)
    (site : Site) (base_url : GitHubUrl) (item : Item) (output_path : List Str)
    (ignore_subdirs : Bool) (relative_to : Option GitHubUrl) (tr : List Event) :
    List Event × Except WalkError Nat :=
  match GitHubUrl.join base_url item.name with
  | .error e => (tr, .error (.joinPanic e))
  | .ok url =>
    match relPathOf item.path relative_to with
    | .error e => (tr, .error e)
    | .ok rel_path =>
      let filename := output_path ++ rel_path
      if item.contentType = "file".data then
        (download_file site url item.path filename tr, .ok 1)
      else if item.contentType = "directory".data then
        if ignore_subdirs then (tr, .ok 0) else recurse url tr
      else if item.contentType = "symlink_file".data ∨
          item.contentType = "symlink_directory".data then
        (tr ++ [.skippedSymlink url.path], .ok 0)
      else (tr, .error (.unknownItemType item.contentType))

/-- The `for item in items { download(...) }` loop of `get_subdir`; a panic
(error) stops the loop, keeping the events produced so far. -/
def downloadItems (recurse : GitHubUrl → List Event → List Event × Except WalkError Nat)
    (site : Site) (base_url : GitHubUrl) (output_path : List Str)
    (ignore_subdirs : Bool) (relative_to : Option GitHubUrl) :
    List Item → List Event → List Event × Except WalkError Nat
  | [], tr => (tr, .ok 0)
  | item :: rest, tr =>
    match download recurse site base_url item output_path ignore_subdirs relative_to tr with
    | (tr1, .error e) => (tr1, .error e)
    | (tr1, .ok n) =>
      match downloadItems recurse site base_url output_path ignore_subdirs relative_to
          rest tr1 with
      | (tr2, .error e) => (tr2, .error e)
      | (tr2, .ok m) => (tr2, .ok (n + m))

/-- `get_subdir` (src lines 200-227): fetch the listing page at `url.url()`
and process each served item, recursing (with one unit less fuel) for
subdirectory items.  Returns the count of files written across the subtree.

Modelled from the spec: the count-of-files-written return value is the
spec's Walk contract; the Rust `get_subdir` returns `()` and only logs each
written file (the writes themselves, from which the count is counted, are
the source's). -/
def get_subdir (site : Site) :
    Nat → GitHubUrl → List Str → Bool → Option GitHubUrl → List Event →
      List Event × Except WalkError Nat
  | 0, _, _, _, _, tr => (tr, .error .outOfFuel)
  | fuel + 1, url, output_path, ignore_subdirs, relative_to, tr =>
    downloadItems (fun u t => get_subdir site fuel u output_path ignore_subdirs relative_to t)
      site url output_path ignore_subdirs relative_to (site.items url.url)
      (tr ++ [.fetched url.url])

/-! ### Invariants of the walk -/

/-- Number of file-write events in a trace. -/
def countWrites (tr : List Event) : Nat :=
  (tr.filter fun e => match e with | .wrote _ _ _ => true | _ => false).length

/-- The local destination prescribed for a file whose repository-root-relative
remote path is `remote`: with `relative_to = none` (root-relative placement)
the first segment of `remote` is dropped; with `relative_to = some rel_url`
(request-relative placement) the requested location's path is removed as a
prefix. -/
def destSpec (relative_to : Option GitHubUrl) (output_path remote dest : List Str) : Prop :=
  match relative_to with
  | none => dest = output_path ++ remote.drop 1
  | some rel_url => ∃ rest, remote = rel_url.path ++ rest ∧ dest = output_path ++ rest

/-- Behavioral invariant of a walker step starting from trace `tr`: the trace
only grows, every added write event lands where `destSpec` prescribes, and on
success the returned count equals the number of write events added. -/
def StepOk (relative_to : Option GitHubUrl) (output_path : List Str)
    (res : List Event × Except WalkError Nat) (tr : List Event) : Prop :=
  (∃ es, res.1 = tr ++ es ∧
      ∀ remote dest c, Event.wrote remote dest c ∈ es →
        destSpec relative_to output_path remote dest) ∧
  ∀ n, res.2 = .ok n → countWrites res.1 = countWrites tr + n

theorem stripSegs_some (p : List Str) : ∀ l r, stripSegs p l = some r → l = p ++ r := by
  induction p with
  | nil =>
    intro l r h
    simp [stripSegs] at h
    simp [h]
  | cons a ps ih =>
    intro l r h
    cases l with
    | nil => simp [stripSegs] at h
    | cons x xs =>
      rw [stripSegs] at h
      by_cases hx : x = a
      · rw [if_pos hx] at h
        rw [hx, List.cons_append]
        rw [ih xs r h]
      · rw [if_neg hx] at h
        simp at h

theorem stripSegs_append (p r : List Str) : stripSegs p (p ++ r) = some r := by
  induction p with
  | nil => rfl
  | cons a ps ih => simp [stripSegs, ih]

theorem relPathOf_destSpec (item_path : List Str) (relative_to : Option GitHubUrl)
    (rp output_path : List Str) (h : relPathOf item_path relative_to = .ok rp) :
    destSpec relative_to output_path item_path (output_path ++ rp) := by
  cases relative_to with
  | none =>
    simp only [relPathOf, Except.ok.injEq] at h
    simp [destSpec, h]
  | some rel_url =>
    simp only [relPathOf] at h
    cases hs : stripSegs rel_url.path item_path with
    | none => rw [hs] at h; simp at h
    | some q =>
      rw [hs] at h
      simp only [Except.ok.injEq] at h
      subst h
      exact ⟨q, stripSegs_some _ _ _ hs, rfl⟩

theorem countWrites_append (a b : List Event) :
    countWrites (a ++ b) = countWrites a + countWrites b := by
  simp [countWrites, List.filter_append]

theorem download_stepOk (recurse : GitHubUrl → List Event → List Event × Except WalkError Nat)
    (site : Site) (base_url : GitHubUrl) (item : Item) (output_path : List Str)
    (ignore_subdirs : Bool) (relative_to : Option GitHubUrl) (tr : List Event)
    (hrec : ∀ u t, StepOk relative_to output_path (recurse u t) t) :
    StepOk relative_to output_path
      (download recurse site base_url item output_path ignore_subdirs relative_to tr) tr := by
  unfold download
  cases hj : GitHubUrl.join base_url item.name with
  | error e => exact ⟨⟨[], by simp, by simp⟩, by simp⟩
  | ok url =>
    cases hr : relPathOf item.path relative_to with
    | error e => exact ⟨⟨[], by simp, by simp⟩, by simp⟩
    | ok rel_path =>
      simp only []
      by_cases hf : item.contentType = "file".data
      · rw [if_pos hf]
        refine ⟨⟨[.wrote item.path (output_path ++ rel_path) (site.raw url.raw_url)],
          by simp [download_file], ?_⟩, ?_⟩
        · intro remote dest c hm
          simp only [List.mem_singleton, Event.wrote.injEq] at hm
          obtain ⟨h1, h2, _⟩ := hm
          subst h1
          subst h2
          exact relPathOf_destSpec item.path relative_to rel_path output_path hr
        · intro n hn
          simp only [Except.ok.injEq] at hn
          subst hn
          simp [download_file, countWrites_append, countWrites]
      · rw [if_neg hf]
        by_cases hd : item.contentType = "directory".data
        · rw [if_pos hd]
          cases ignore_subdirs with
          | true => exact ⟨⟨[], by simp, by simp⟩, by simp⟩
          | false => exact hrec url tr
        · rw [if_neg hd]
          by_cases hs : item.contentType = "symlink_file".data ∨
              item.contentType = "symlink_directory".data
          · rw [if_pos hs]
            refine ⟨⟨[.skippedSymlink url.path], by simp, ?_⟩, ?_⟩
            · intro remote dest c hm
              simp at hm
            · intro n hn
              simp only [Except.ok.injEq] at hn
              subst hn
              simp [countWrites_append, countWrites]
          · rw [if_neg hs]
            exact ⟨⟨[], by simp, by simp⟩, by simp⟩

theorem downloadItems_cons
    (recurse : GitHubUrl → List Event → List Event × Except WalkError Nat)
    (site : Site) (base_url : GitHubUrl) (output_path : List Str)
    (ignore_subdirs : Bool) (relative_to : Option GitHubUrl)
    (item : Item) (rest : List Item) (tr : List Event) :
    downloadItems recurse site base_url output_path ignore_subdirs relative_to
        (item :: rest) tr =
      match download recurse site base_url item output_path ignore_subdirs relative_to tr with
      | (tr1, .error e) => (tr1, .error e)
      | (tr1, .ok n) =>
        match downloadItems recurse site base_url output_path ignore_subdirs relative_to
            rest tr1 with
        | (tr2, .error e) => (tr2, .error e)
        | (tr2, .ok m) => (tr2, .ok (n + m)) := rfl

theorem downloadItems_stepOk
    (recurse : GitHubUrl → List Event → List Event × Except WalkError Nat)
    (site : Site) (base_url : GitHubUrl) (output_path : List Str)
    (ignore_subdirs : Bool) (relative_to : Option GitHubUrl)
    (hrec : ∀ u t, StepOk relative_to output_path (recurse u t) t) :
    ∀ (items : List Item) (tr : List Event),
      StepOk relative_to output_path
        (downloadItems recurse site base_url output_path ignore_subdirs relative_to items tr)
        tr := by
  intro items
  induction items with
  | nil =>
    intro tr
    exact ⟨⟨[], by simp [downloadItems], by simp⟩, by simp [downloadItems]⟩
  | cons item rest ih =>
    intro tr
    have h1 := download_stepOk recurse site base_url item output_path ignore_subdirs
      relative_to tr hrec
    cases hd : download recurse site base_url item output_path ignore_subdirs relative_to tr with
    | mk tr1 r1 =>
      rw [hd] at h1
      obtain ⟨⟨es1, hes1, hw1⟩, hc1⟩ := h1
      simp only at hes1
      rw [downloadItems_cons, hd]
      cases r1 with
      | error e =>
        exact ⟨⟨es1, hes1, hw1⟩, fun n hn => Except.noConfusion hn⟩
      | ok n =>
        show StepOk relative_to output_path
          (match downloadItems recurse site base_url output_path ignore_subdirs relative_to
              rest tr1 with
            | (tr2, .error e) => (tr2, .error e)
            | (tr2, .ok m) => (tr2, .ok (n + m))) tr
        have h2 := ih tr1
        cases hrest : downloadItems recurse site base_url output_path ignore_subdirs
            relative_to rest tr1 with
        | mk tr2 r2 =>
          rw [hrest] at h2
          obtain ⟨⟨es2, hes2, hw2⟩, hc2⟩ := h2
          simp only at hes2
          have hmem : ∀ remote dest c, Event.wrote remote dest c ∈ es1 ++ es2 →
              destSpec relative_to output_path remote dest := by
            intro remote dest c hm
            rcases List.mem_append.mp hm with hm | hm
            · exact hw1 remote dest c hm
            · exact hw2 remote dest c hm
          have htr : tr2 = tr ++ (es1 ++ es2) := by
            rw [hes2, hes1, List.append_assoc]
          cases r2 with
          | error e =>
            exact ⟨⟨es1 ++ es2, htr, hmem⟩, fun k hk => Except.noConfusion hk⟩
          | ok m =>
            refine ⟨⟨es1 ++ es2, htr, hmem⟩, ?_⟩
            intro k hk
            have hk2 : n + m = k := by
              have : Except.ok (ε := WalkError) (n + m) = .ok k := hk
              simpa using this
            have e1 := hc1 n rfl
            have e2 := hc2 m rfl
            simp only at e1 e2
            show countWrites tr2 = countWrites tr + k
            omega

theorem get_subdir_stepOk (site : Site) :
    ∀ (fuel : Nat) (url : GitHubUrl) (output_path : List Str) (ignore_subdirs : Bool)
      (relative_to : Option GitHubUrl) (tr : List Event),
      StepOk relative_to output_path
        (get_subdir site fuel url output_path ignore_subdirs relative_to tr) tr := by
  intro fuel
  induction fuel with
  | zero =>
    intro url output_path ignore_subdirs relative_to tr
    exact ⟨⟨[], by simp [get_subdir], by simp⟩, by simp [get_subdir]⟩
  | succ fuel ih =>
    intro url output_path ignore_subdirs relative_to tr
    have h := downloadItems_stepOk
      (fun u t => get_subdir site fuel u output_path ignore_subdirs relative_to t)
      site url output_path ignore_subdirs relative_to
      (fun u t => ih u output_path ignore_subdirs relative_to t)
      (site.items url.url) (tr ++ [.fetched url.url])
    obtain ⟨⟨es, hes, hw⟩, hc⟩ := h
    refine ⟨⟨.fetched url.url :: es, ?_, ?_⟩, ?_⟩
    · rw [get_subdir]
      rw [hes]
      simp
    · intro remote dest c hm
      rcases List.mem_cons.mp hm with hm | hm
      · exact absurd hm (by simp)
      · exact hw remote dest c hm
    · intro n hn
      rw [get_subdir] at hn ⊢
      have := hc n hn
      rw [this, countWrites_append]
      simp [countWrites]

/-! ### Pointwise equations for `download` -/

theorem download_file_eq
    (recurse : GitHubUrl → List Event → List Event × Except WalkError Nat)
    (site : Site) (base_url : GitHubUrl) (item : Item) (output_path : List Str)
    (ignore_subdirs : Bool) (relative_to : Option GitHubUrl) (tr : List Event)
    (u : GitHubUrl) (rp : List Str)
    (hj : base_url.join item.name = .ok u)
    (hr : relPathOf item.path relative_to = .ok rp)
    (hf : item.contentType = "file".data) :
    download recurse site base_url item output_path ignore_subdirs relative_to tr =
      (tr ++ [.wrote item.path (output_path ++ rp) (site.raw u.raw_url)], .ok 1) := by
  simp only [download, hj, hr]
  rw [if_pos hf]
  rfl

theorem download_dir_ignored_eq
    (recurse : GitHubUrl → List Event → List Event × Except WalkError Nat)
    (site : Site) (base_url : GitHubUrl) (item : Item) (output_path : List Str)
    (relative_to : Option GitHubUrl) (tr : List Event) (u : GitHubUrl) (rp : List Str)
    (hj : base_url.join item.name = .ok u)
    (hr : relPathOf item.path relative_to = .ok rp)
    (hd : item.contentType = "directory".data) :
    download recurse site base_url item output_path true relative_to tr = (tr, .ok 0) := by
  simp only [download, hj, hr]
  rw [if_neg (by rw [hd]; decide), if_pos hd]
  rfl

theorem download_dir_recurse_eq
    (recurse : GitHubUrl → List Event → List Event × Except WalkError Nat)
    (site : Site) (base_url : GitHubUrl) (item : Item) (output_path : List Str)
    (relative_to : Option GitHubUrl) (tr : List Event) (u : GitHubUrl) (rp : List Str)
    (hj : base_url.join item.name = .ok u)
    (hr : relPathOf item.path relative_to = .ok rp)
    (hd : item.contentType = "directory".data) :
    download recurse site base_url item output_path false relative_to tr = recurse u tr := by
  simp only [download, hj, hr]
  rw [if_neg (by rw [hd]; decide), if_pos hd]
  rfl

theorem download_symlink_eq
    (recurse : GitHubUrl → List Event → List Event × Except WalkError Nat)
    (site : Site) (base_url : GitHubUrl) (item : Item) (output_path : List Str)
    (ignore_subdirs : Bool) (relative_to : Option GitHubUrl) (tr : List Event)
    (u : GitHubUrl) (rp : List Str)
    (hj : base_url.join item.name = .ok u)
    (hr : relPathOf item.path relative_to = .ok rp)
    (hk : item.contentType = "symlink_file".data ∨
      item.contentType = "symlink_directory".data) :
    download recurse site base_url item output_path ignore_subdirs relative_to tr =
      (tr ++ [.skippedSymlink u.path], .ok 0) := by
  simp only [download, hj, hr]
  rw [if_neg (by rcases hk with hk | hk <;> rw [hk] <;> decide),
    if_neg (by rcases hk with hk | hk <;> rw [hk] <;> decide), if_pos hk]

theorem download_unknown_eq
    (recurse : GitHubUrl → List Event → List Event × Except WalkError Nat)
    (site : Site) (base_url : GitHubUrl) (item : Item) (output_path : List Str)
    (ignore_subdirs : Bool) (relative_to : Option GitHubUrl) (tr : List Event)
    (u : GitHubUrl) (rp : List Str)
    (hj : base_url.join item.name = .ok u)
    (hr : relPathOf item.path relative_to = .ok rp)
    (h1 : item.contentType ≠ "file".data)
    (h2 : item.contentType ≠ "directory".data)
    (h3 : item.contentType ≠ "symlink_file".data)
    (h4 : item.contentType ≠ "symlink_directory".data) :
    download recurse site base_url item output_path ignore_subdirs relative_to tr =
      (tr, .error (.unknownItemType item.contentType)) := by
  simp only [download, hj, hr]
  rw [if_neg h1, if_neg h2, if_neg (fun hor => hor.elim h3 h4)]

theorem downloadItems_nil
    (recurse : GitHubUrl → List Event → List Event × Except WalkError Nat)
    (site : Site) (base_url : GitHubUrl) (output_path : List Str)
    (ignore_subdirs : Bool) (relative_to : Option GitHubUrl) (tr : List Event) :
    downloadItems recurse site base_url output_path ignore_subdirs relative_to [] tr =
      (tr, .ok 0) := rfl

theorem downloadItems_cons_of_error
    (recurse : GitHubUrl → List Event → List Event × Except WalkError Nat)
    (site : Site) (base_url : GitHubUrl) (output_path : List Str)
    (ignore_subdirs : Bool) (relative_to : Option GitHubUrl)
    (item : Item) (rest : List Item) (tr tr1 : List Event) (e : WalkError)
    (hdl : download recurse site base_url item output_path ignore_subdirs relative_to tr =
      (tr1, .error e)) :
    downloadItems recurse site base_url output_path ignore_subdirs relative_to
      (item :: rest) tr = (tr1, .error e) := by
  rw [downloadItems_cons, hdl]

theorem downloadItems_cons_of_ok
    (recurse : GitHubUrl → List Event → List Event × Except WalkError Nat)
    (site : Site) (base_url : GitHubUrl) (output_path : List Str)
    (ignore_subdirs : Bool) (relative_to : Option GitHubUrl)
    (item : Item) (rest : List Item) (tr tr1 tr2 : List Event) (n m : Nat)
    (hdl : download recurse site base_url item output_path ignore_subdirs relative_to tr =
      (tr1, .ok n))
    (hrest : downloadItems recurse site base_url output_path ignore_subdirs relative_to
      rest tr1 = (tr2, .ok m)) :
    downloadItems recurse site base_url output_path ignore_subdirs relative_to
      (item :: rest) tr = (tr2, .ok (n + m)) := by
  rw [downloadItems_cons, hdl]
  show (match downloadItems recurse site base_url output_path ignore_subdirs relative_to
        rest tr1 with
    | (tr2, Except.error e) => (tr2, Except.error e)
    | (tr2, Except.ok m) => (tr2, Except.ok (n + m))) = (tr2, Except.ok (n + m))
  rw [hrest]

/-- If a first batch of items is processed successfully and the continuation
errors out, the whole loop errors out with the continuation's trace. -/
theorem downloadItems_append_error
    (recurse : GitHubUrl → List Event → List Event × Except WalkError Nat)
    (site : Site) (base_url : GitHubUrl) (output_path : List Str)
    (ignore_subdirs : Bool) (relative_to : Option GitHubUrl) :
    ∀ (l1 l2 : List Item) (tr tr1 tr2 : List Event) (n : Nat) (e : WalkError),
      downloadItems recurse site base_url output_path ignore_subdirs relative_to l1 tr =
        (tr1, .ok n) →
      downloadItems recurse site base_url output_path ignore_subdirs relative_to l2 tr1 =
        (tr2, .error e) →
      downloadItems recurse site base_url output_path ignore_subdirs relative_to
        (l1 ++ l2) tr = (tr2, .error e) := by
  intro l1
  induction l1 with
  | nil =>
    intro l2 tr tr1 tr2 n e h1 h2
    have h1' : (tr, (Except.ok 0 : Except WalkError Nat)) = (tr1, .ok n) := h1
    have htr : tr = tr1 := congrArg Prod.fst h1'
    rw [List.nil_append, htr]
    exact h2
  | cons item l1' ih =>
    intro l2 tr tr1 tr2 n e h1 h2
    rw [List.cons_append, downloadItems_cons]
    rw [downloadItems_cons] at h1
    cases hd : download recurse site base_url item output_path ignore_subdirs relative_to tr with
    | mk tra ra =>
      rw [hd] at h1
      cases ra with
      | error e' =>
        have h1' : (tra, (Except.error e' : Except WalkError Nat)) = (tr1, .ok n) := h1
        have := congrArg Prod.snd h1'
        simp at this
      | ok k =>
        show (match downloadItems recurse site base_url output_path ignore_subdirs relative_to
              (l1' ++ l2) tra with
          | (tr2, Except.error e) => (tr2, Except.error e)
          | (tr2, Except.ok m) => (tr2, Except.ok (k + m))) = (tr2, Except.error e)
        have h1'' : (match downloadItems recurse site base_url output_path ignore_subdirs
              relative_to l1' tra with
          | (tr2, Except.error e) => (tr2, Except.error e)
          | (tr2, Except.ok m) => (tr2, Except.ok (k + m))) = (tr1, Except.ok n) := h1
        cases hrest : downloadItems recurse site base_url output_path ignore_subdirs
            relative_to l1' tra with
        | mk trb rb =>
          rw [hrest] at h1''
          cases rb with
          | error e'' =>
            have h1' : (trb, (Except.error e'' : Except WalkError Nat)) = (tr1, .ok n) := h1''
            have := congrArg Prod.snd h1'
            simp at this
          | ok m' =>
            have h1' : (trb, (Except.ok (k + m') : Except WalkError Nat)) = (tr1, .ok n) := h1''
            have htr : trb = tr1 := congrArg Prod.fst h1'
            rw [ih l2 tra trb tr2 m' e hrest (htr ▸ h2)]

/-! ### Concrete sample data used by the witnesses -/

/-- `https://github.com/o/r/tree/b/d`, parsed. -/
def sampleUrl : GitHubUrl :=
  ⟨hostAddr, rawAddr, "o".data, "r".data, "b".data, ["d".data]⟩

/-- `sampleUrl` joined with the directory entry `s`. -/
def dirUrl : GitHubUrl :=
  ⟨hostAddr, rawAddr, "o".data, "r".data, "b".data, ["d".data, "s".data]⟩

/-- `sampleUrl` joined with the file entry `f`. -/
def fileUrl : GitHubUrl :=
  ⟨hostAddr, rawAddr, "o".data, "r".data, "b".data, ["d".data, "f".data]⟩

/-- `sampleUrl` joined with the symlink entry `l`. -/
def linkUrl : GitHubUrl :=
  ⟨hostAddr, rawAddr, "o".data, "r".data, "b".data, ["d".data, "l".data]⟩

/-- `sampleUrl` joined with the unrecognized entry `w`. -/
def oddUrl : GitHubUrl :=
  ⟨hostAddr, rawAddr, "o".data, "r".data, "b".data, ["d".data, "w".data]⟩

def fileItem : Item := ⟨"file".data, "f".data, ["d".data, "f".data]⟩

def dirItem : Item := ⟨"directory".data, "s".data, ["d".data, "s".data]⟩

def linkItem : Item := ⟨"symlink_file".data, "l".data, ["d".data, "l".data]⟩

def oddItem : Item := ⟨"submodule".data, "w".data, ["d".data, "w".data]⟩

/-- A sample remote: the requested directory lists one subdirectory and one
file; every other directory is empty; every raw fetch serves `body`. -/
def sampleSite : Site where
  items := fun s => if s = sampleUrl.url then [dirItem, fileItem] else []
  raw := fun _ => "body".data

/-! ### Claim theorems: the URL model -/

/-- Claim C3: `GitHubUrl::new` fails with the top-level-repo error
(`TopLevelRepoUrl`) when exactly two non-empty segments follow the hosting
root, with the not-a-directory error (`NotADirectoryUrl`) when fewer than
four (and not exactly two, which takes precedence) segments remain, with the
cannot-parse error (`UnparsableUrl`) when the segment at index 2 is not the
literal `tree`, and with the not-a-github-url error (`NotAHostedUrl`) when
the input does not start with `https://github.com`. -/
theorem parse_error_taxonomy (url : Str) :
    (¬ strStarts hostAddr url = true → GitHubUrl.new url = .error .notAGithubUrl) ∧
    (strStarts hostAddr url = true →
      (slashSegs (url.drop hostAddr.length)).length = 2 →
      GitHubUrl.new url = .error .topLevelRepo) ∧
    (strStarts hostAddr url = true →
      (slashSegs (url.drop hostAddr.length)).length ≠ 2 →
      (slashSegs (url.drop hostAddr.length)).length < 4 →
      GitHubUrl.new url = .error .notADirectoryUrl) ∧
    (strStarts hostAddr url = true →
      4 ≤ (slashSegs (url.drop hostAddr.length)).length →
      (slashSegs (url.drop hostAddr.length))[2]! ≠ "tree".data →
      GitHubUrl.new url = .error .unparsableUrl) := by
  refine ⟨?_, ?_, ?_, ?_⟩
  · intro h
    unfold GitHubUrl.new
    rw [if_neg h]
  · intro h1 h2
    unfold GitHubUrl.new
    rw [if_pos h1]
    simp only []
    rw [if_pos h2]
  · intro h1 h2 h3
    unfold GitHubUrl.new
    rw [if_pos h1]
    simp only []
    rw [if_neg h2, if_pos h3]
  · intro h1 h2 h3
    unfold GitHubUrl.new
    rw [if_pos h1]
    simp only []
    rw [if_neg (by omega), if_neg (by omega), if_pos h3]

/-- Witness for `parse_error_taxonomy`, at one concrete URL per error. -/
theorem parse_error_taxonomy_witness :
    GitHubUrl.new "https://some-other.url".data = .error .notAGithubUrl ∧
    GitHubUrl.new "https://github.com/username/repo".data = .error .topLevelRepo ∧
    GitHubUrl.new "https://github.com/username/".data = .error .notADirectoryUrl ∧
    GitHubUrl.new "https://github.com/u/repo/not_tree/branch".data = .error .unparsableUrl :=
  ⟨(parse_error_taxonomy _).1 (by decide),
   (parse_error_taxonomy _).2.1 (by decide) (by decide),
   (parse_error_taxonomy _).2.2.1 (by decide) (by decide) (by decide),
   (parse_error_taxonomy _).2.2.2 (by decide) (by decide) (by decide)⟩

/-- Counterexample to claim C4: `https://github.com/owner/repo/tree/branch`
(segments exactly owner, repo, `tree`, branch — an empty path tail) parses
successfully, with an empty `path`, instead of failing with
`NotADirectoryUrl`. -/
theorem empty_tail_counterexample :
    GitHubUrl.new "https://github.com/owner/repo/tree/branch".data =
      .ok ⟨hostAddr, rawAddr, "owner".data, "repo".data, "branch".data, []⟩ := rfl

/-- Claim C4 (amended): a URL whose segments after the hosting root are
exactly owner, repo, `tree`, branch — an empty path tail — parses
successfully with an empty `path`, rather than failing with
`NotADirectoryUrl`. -/
theorem empty_tail_parses (url : Str)
    (hs : strStarts hostAddr url = true)
    (hlen : (slashSegs (url.drop hostAddr.length)).length = 4)
    (ht : (slashSegs (url.drop hostAddr.length))[2]! = "tree".data) :
    GitHubUrl.new url = .ok ⟨hostAddr, rawAddr,
      (slashSegs (url.drop hostAddr.length))[0]!,
      (slashSegs (url.drop hostAddr.length))[1]!,
      (slashSegs (url.drop hostAddr.length))[3]!, []⟩ := by
  obtain ⟨a, b, c, d, r, hl⟩ := list_shape_of_four_le _ (le_of_eq hlen.symm)
  have hr0 : r = [] := by
    rw [hl] at hlen
    simp only [List.length_cons] at hlen
    have : r.length = 0 := by omega
    exact List.length_eq_zero.mp this
  subst hr0
  have hc : c = "tree".data := by
    rw [hl] at ht
    simpa using ht
  have hp : slashSegs (url.drop hostAddr.length) =
      a :: b :: "tree".data :: d :: ([] : List Str) := by
    rw [hl, hc]
  rw [new_ok_of_parts url a b d [] hs hp]
  simp [hl]

/-- Witness for `empty_tail_parses` at a concrete URL. -/
theorem empty_tail_parses_witness :
    GitHubUrl.new "https://github.com/ow/re/tree/br".data =
      .ok ⟨hostAddr, rawAddr, "ow".data, "re".data, "br".data, []⟩ :=
  empty_tail_parses "https://github.com/ow/re/tree/br".data (by decide) (by decide)
    (by decide)

/-- Claim C5: parsing a valid directory URL and reconstructing with `url()`
round-trips: the reconstructed URL's non-empty `/`-segments after the host
equal the original input's. -/
theorem parse_url_round_trip (url : Str) (u : GitHubUrl)
    (h : GitHubUrl.new url = .ok u) :
    slashSegs (u.url.drop hostAddr.length) = slashSegs (url.drop hostAddr.length) := by
  rw [segs_url u (new_ok_wf url u h), (new_ok_elim url u h).2.1]

/-- Witness for `parse_url_round_trip` at a concrete URL. -/
theorem parse_url_round_trip_witness :
    slashSegs (sampleUrl.url.drop hostAddr.length) =
      slashSegs ("https://github.com/o/r/tree/b/d".data.drop hostAddr.length) :=
  parse_url_round_trip "https://github.com/o/r/tree/b/d".data sampleUrl rfl

/-- Claim C6: for a location obtained from a successful parse, `join`
produces the location with the child name appended as one final path
segment, and the basename of that new location is the child name. -/
theorem join_child_spec (url name : Str) (u : GitHubUrl)
    (h : GitHubUrl.new url = .ok u) (h1 : name ≠ []) (h2 : '/' ∉ name) :
    u.join name = .ok { u with path := u.path ++ [name] } ∧
    GitHubUrl.basename { u with path := u.path ++ [name] } = some name := by
  refine ⟨join_ok u (new_ok_wf url u h) name ⟨h1, h2⟩, ?_⟩
  simp [GitHubUrl.basename]

/-- Witness for `join_child_spec` with the child name `x`. -/
theorem join_child_spec_witness :
    sampleUrl.join "x".data =
      .ok { sampleUrl with path := sampleUrl.path ++ ["x".data] } ∧
    GitHubUrl.basename { sampleUrl with path := sampleUrl.path ++ ["x".data] } =
      some "x".data :=
  join_child_spec "https://github.com/o/r/tree/b/d".data "x".data sampleUrl rfl
    (by decide) (by decide)

/-- Counterexample to claim C10's example: parsing
`https://github.comX/owner/repo/tree/branch/dir` does not succeed: the six
segments left after stripping the literal `https://github.com` put `repo` at
index 2 where `tree` is expected, so parsing fails with `UnparsableUrl`
(and in particular not with `NotAHostedUrl`). -/
theorem host_literal_counterexample :
    GitHubUrl.new "https://github.comX/owner/repo/tree/branch/dir".data =
      .error .unparsableUrl := rfl

/-- Claim C10 (amended): the hosted-URL check is a literal character-test
only: `https://github.comX/repo/tree/branch/dir` — whose host is
`github.comX`, not `github.com` — parses successfully, the leftover `X`
being taken as the owner segment; and the not-a-github-url error is returned
exactly for the inputs that lack the character sequence
`https://github.com`. -/
theorem host_check_literal :
    GitHubUrl.new "https://github.comX/repo/tree/branch/dir".data =
      .ok ⟨hostAddr, rawAddr, "X".data, "repo".data, "branch".data, ["dir".data]⟩ ∧
    (∀ url : Str, ¬ strStarts hostAddr url = true →
      GitHubUrl.new url = .error .notAGithubUrl) ∧
    (∀ url : Str, GitHubUrl.new url = .error .notAGithubUrl →
      ¬ strStarts hostAddr url = true) := by
  refine ⟨rfl, ?_, ?_⟩
  · intro url h
    unfold GitHubUrl.new
    rw [if_neg h]
  · intro url h hs
    unfold GitHubUrl.new at h
    rw [if_pos hs] at h
    simp only [] at h
    split at h
    · simp at h
    · split at h
      · simp at h
      · split at h
        · simp at h
        · simp at h

/-- Witness for `host_check_literal` at a concrete non-hosted URL. -/
theorem host_check_literal_witness :
    GitHubUrl.new "ssh://github.com/o/r/tree/b/d".data = .error .notAGithubUrl ∧
    ¬ strStarts hostAddr "ssh://github.com/o/r/tree/b/d".data = true :=
  ⟨host_check_literal.2.1 _ (by decide),
   host_check_literal.2.2 _ (host_check_literal.2.1 _ (by decide))⟩

/-! ### Claim theorems: the walker -/

/-- Claim C1: destinations of downloaded files.  (1) Every write event a walk
adds to the trace satisfies `destSpec`: with `relative_to = none`
(root-relative placement) the destination is the output root joined with the
remote path minus exactly its first segment, and with `relative_to = some
rel_url` (request-relative placement) the remote path starts with
`rel_url.path` and the destination is the output root joined with the
remainder.  (2) For a file item, `download` writes to exactly that
destination, and (3) it fails with the prefix-mismatch panic whenever the
remote path does not start with the requested location's path. -/
theorem file_dest_policy (site : Site) (output_path : List Str) :
    (∀ (fuel : Nat) (url : GitHubUrl) (ignore_subdirs : Bool)
        (relative_to : Option GitHubUrl) (tr : List Event) (remote dest : List Str)
        (c : Str),
      Event.wrote remote dest c ∈
          (get_subdir site fuel url output_path ignore_subdirs relative_to tr).1 →
        Event.wrote remote dest c ∈ tr ∨ destSpec relative_to output_path remote dest) ∧
    (∀ (recurse : GitHubUrl → List Event → List Event × Except WalkError Nat)
        (base_url : GitHubUrl) (item : Item) (ignore_subdirs : Bool) (tr : List Event)
        (u : GitHubUrl),
      base_url.join item.name = .ok u → item.contentType = "file".data →
      (download recurse site base_url item output_path ignore_subdirs none tr =
        (tr ++ [.wrote item.path (output_path ++ item.path.drop 1) (site.raw u.raw_url)],
          .ok 1)) ∧
      (∀ (rel_url : GitHubUrl) (rest : List Str), item.path = rel_url.path ++ rest →
        download recurse site base_url item output_path ignore_subdirs (some rel_url) tr =
          (tr ++ [.wrote item.path (output_path ++ rest) (site.raw u.raw_url)], .ok 1)) ∧
      (∀ rel_url : GitHubUrl, (∀ rest, item.path ≠ rel_url.path ++ rest) →
        download recurse site base_url item output_path ignore_subdirs (some rel_url) tr =
          (tr, .error .prefixPanic))) := by
  constructor
  · intro fuel url ignore_subdirs relative_to tr remote dest c hm
    obtain ⟨⟨es, hes, hw⟩, _⟩ :=
      get_subdir_stepOk site fuel url output_path ignore_subdirs relative_to tr
    rw [hes] at hm
    rcases List.mem_append.mp hm with hm | hm
    · exact Or.inl hm
    · exact Or.inr (hw remote dest c hm)
  · intro recurse base_url item ignore_subdirs tr u hj hf
    refine ⟨?_, ?_, ?_⟩
    · exact download_file_eq recurse site base_url item output_path ignore_subdirs none
        tr u (item.path.drop 1) hj rfl hf
    · intro rel_url rest hpre
      have hr : relPathOf item.path (some rel_url) = .ok rest := by
        simp only [relPathOf]
        rw [hpre, stripSegs_append]
      exact download_file_eq recurse site base_url item output_path ignore_subdirs
        (some rel_url) tr u rest hj hr hf
    · intro rel_url hmis
      have hnone : stripSegs rel_url.path item.path = none := by
        cases hs : stripSegs rel_url.path item.path with
        | none => rfl
        | some q => exact absurd (stripSegs_some _ _ _ hs) (hmis q)
      simp only [download, hj, relPathOf, hnone]

/-- Witness for `file_dest_policy`: the sample file item is written to the
output root plus its remote path minus the first segment. -/
theorem file_dest_policy_witness :
    download (fun _ t => (t, Except.ok 0)) sampleSite sampleUrl fileItem ["out".data]
        false none [] =
      ([] ++ [Event.wrote fileItem.path (["out".data] ++ fileItem.path.drop 1)
        (sampleSite.raw fileUrl.raw_url)], Except.ok 1) :=
  ((file_dest_policy sampleSite ["out".data]).2 (fun _ t => (t, Except.ok 0)) sampleUrl
    fileItem false [] fileUrl rfl rfl).1

/-- Claim C2: a successful walk returns the number of files it wrote across
the whole subtree: the count of write events in the final trace exceeds the
count in the starting trace by exactly the returned count.  (The count
return value is modelled from the spec; the writes are the source's.) -/
theorem walk_count (site : Site) (fuel : Nat) (url : GitHubUrl) (output_path : List Str)
    (ignore_subdirs : Bool) (relative_to : Option GitHubUrl) (tr tr2 : List Event)
    (n : Nat)
    (h : get_subdir site fuel url output_path ignore_subdirs relative_to tr =
      (tr2, .ok n)) :
    countWrites tr2 = countWrites tr + n := by
  have hstep := (get_subdir_stepOk site fuel url output_path ignore_subdirs
    relative_to tr).2 n (by rw [h])
  rw [h] at hstep
  exact hstep

/-- Witness for `walk_count`: the sample walk (one subdirectory entry, one
file entry, an empty subdirectory listing) writes one file and returns 1. -/
theorem walk_count_witness :
    countWrites [Event.fetched sampleUrl.url, Event.fetched dirUrl.url,
        Event.wrote ["d".data, "f".data] ["out".data, "f".data] "body".data] =
      countWrites [] + 1 :=
  walk_count sampleSite 2 sampleUrl ["out".data] false none []
    [Event.fetched sampleUrl.url, Event.fetched dirUrl.url,
      Event.wrote ["d".data, "f".data] ["out".data, "f".data] "body".data] 1 rfl

/-- Claim C7: when the listing holds one directory entry and one file entry
and `ignore_subdirs` is set, the walk downloads only the file and performs
no recursive listing fetch: the whole trace is the single initial fetch
followed by the single file write, and the count is 1. -/
theorem ignore_subdirs_walk (site : Site) (fuel : Nat) (url : GitHubUrl)
    (output_path : List Str) (relative_to : Option GitHubUrl) (tr : List Event)
    (d f : Item) (du fu : GitHubUrl) (rd rf : List Str)
    (hsite : site.items url.url = [d, f])
    (hd : d.contentType = "directory".data)
    (hf : f.contentType = "file".data)
    (hjd : url.join d.name = .ok du)
    (hjf : url.join f.name = .ok fu)
    (hrd : relPathOf d.path relative_to = .ok rd)
    (hrf : relPathOf f.path relative_to = .ok rf) :
    get_subdir site (fuel + 1) url output_path true relative_to tr =
      (tr ++ [.fetched url.url, .wrote f.path (output_path ++ rf) (site.raw fu.raw_url)],
        .ok 1) := by
  rw [get_subdir, hsite]
  have h1 : download (fun u t => get_subdir site fuel u output_path true relative_to t)
      site url d output_path true relative_to (tr ++ [Event.fetched url.url]) =
      (tr ++ [Event.fetched url.url], .ok 0) :=
    download_dir_ignored_eq _ site url d output_path relative_to
      (tr ++ [Event.fetched url.url]) du rd hjd hrd hd
  have h2 : download (fun u t => get_subdir site fuel u output_path true relative_to t)
      site url f output_path true relative_to (tr ++ [Event.fetched url.url]) =
      ((tr ++ [Event.fetched url.url]) ++
        [Event.wrote f.path (output_path ++ rf) (site.raw fu.raw_url)], .ok 1) :=
    download_file_eq _ site url f output_path true relative_to
      (tr ++ [Event.fetched url.url]) fu rf hjf hrf hf
  have h0 := downloadItems_nil
    (fun u t => get_subdir site fuel u output_path true relative_to t)
    site url output_path true relative_to
    ((tr ++ [Event.fetched url.url]) ++
      [Event.wrote f.path (output_path ++ rf) (site.raw fu.raw_url)])
  have h3 := downloadItems_cons_of_ok _ site url output_path true relative_to f [] _ _ _
    1 0 h2 h0
  have h4 := downloadItems_cons_of_ok _ site url output_path true relative_to d [f] _ _ _
    0 (1 + 0) h1 h3
  rw [h4]
  simp

/-- Witness for `ignore_subdirs_walk` on the sample listing. -/
theorem ignore_subdirs_walk_witness :
    get_subdir sampleSite 1 sampleUrl ["out".data] true none [] =
      ([] ++ [Event.fetched sampleUrl.url,
        Event.wrote fileItem.path (["out".data] ++ fileItem.path.drop 1)
          (sampleSite.raw fileUrl.raw_url)], Except.ok 1) :=
  ignore_subdirs_walk sampleSite 0 sampleUrl ["out".data] none [] dirItem fileItem
    dirUrl fileUrl (dirItem.path.drop 1) (fileItem.path.drop 1)
    rfl rfl rfl rfl rfl rfl rfl

/-- Claim C8: a symlink entry (either kind) never writes a file and never
recurses — the result does not depend on `recurse` — and appends exactly one
skipped-symlink notification; it is never an error (the step succeeds with
count 0). -/
theorem symlink_skip
    (recurse : GitHubUrl → List Event → List Event × Except WalkError Nat)
    (site : Site) (base_url : GitHubUrl) (item : Item) (output_path : List Str)
    (ignore_subdirs : Bool) (relative_to : Option GitHubUrl) (tr : List Event)
    (u : GitHubUrl) (rp : List Str)
    (hj : base_url.join item.name = .ok u)
    (hr : relPathOf item.path relative_to = .ok rp)
    (hk : item.contentType = "symlink_file".data ∨
      item.contentType = "symlink_directory".data) :
    download recurse site base_url item output_path ignore_subdirs relative_to tr =
      (tr ++ [.skippedSymlink u.path], .ok 0) :=
  download_symlink_eq recurse site base_url item output_path ignore_subdirs relative_to
    tr u rp hj hr hk

/-- Witness for `symlink_skip` on the sample symlink item. -/
theorem symlink_skip_witness :
    download (fun _ t => (t, Except.ok 0)) sampleSite sampleUrl linkItem ["out".data]
        false none [] = ([] ++ [Event.skippedSymlink linkUrl.path], Except.ok 0) :=
  symlink_skip (fun _ t => (t, Except.ok 0)) sampleSite sampleUrl linkItem ["out".data]
    false none [] linkUrl (linkItem.path.drop 1) rfl rfl (Or.inl rfl)

/-- Claim C9: an entry whose `contentType` is none of the four recognized
strings makes the current directory's loop fail with the unknown-item panic,
and the final trace is exactly the trace left by the prior sibling entries —
every file written for them is still present, unchanged. -/
theorem unknown_kind_fails
    (recurse : GitHubUrl → List Event → List Event × Except WalkError Nat)
    (site : Site) (base_url : GitHubUrl) (output_path : List Str)
    (ignore_subdirs : Bool) (relative_to : Option GitHubUrl)
    (good : List Item) (bad : Item) (rest : List Item) (tr tr1 : List Event) (n : Nat)
    (u : GitHubUrl) (rp : List Str)
    (hgood : downloadItems recurse site base_url output_path ignore_subdirs relative_to
      good tr = (tr1, .ok n))
    (hj : base_url.join bad.name = .ok u)
    (hr : relPathOf bad.path relative_to = .ok rp)
    (h1 : bad.contentType ≠ "file".data)
    (h2 : bad.contentType ≠ "directory".data)
    (h3 : bad.contentType ≠ "symlink_file".data)
    (h4 : bad.contentType ≠ "symlink_directory".data) :
    downloadItems recurse site base_url output_path ignore_subdirs relative_to
      (good ++ bad :: rest) tr = (tr1, .error (.unknownItemType bad.contentType)) := by
  apply downloadItems_append_error recurse site base_url output_path ignore_subdirs
    relative_to good (bad :: rest) tr tr1 tr1 n _ hgood
  exact downloadItems_cons_of_error recurse site base_url output_path ignore_subdirs
    relative_to bad rest tr1 tr1 _
    (download_unknown_eq recurse site base_url bad output_path ignore_subdirs relative_to
      tr1 u rp hj hr h1 h2 h3 h4)

/-- Witness for `unknown_kind_fails`: after a sibling file is written, the
unrecognized `submodule` entry aborts the loop while the write survives. -/
theorem unknown_kind_fails_witness :
    downloadItems (fun _ t => (t, Except.ok 0)) sampleSite sampleUrl ["out".data]
        false none [fileItem, oddItem] [] =
      ([Event.wrote fileItem.path ["out".data, "f".data] "body".data],
        Except.error (.unknownItemType oddItem.contentType)) :=
  unknown_kind_fails (fun _ t => (t, Except.ok 0)) sampleSite sampleUrl ["out".data]
    false none [fileItem] oddItem [] []
    [Event.wrote fileItem.path ["out".data, "f".data] "body".data] 1 oddUrl
    (oddItem.path.drop 1) rfl rfl rfl (by decide) (by decide) (by decide) (by decide)

end GitSubdir
